import Mathlib

/-!
Verification development for the media acquisition engine of the
`getTweet` repository (`src/media_downloader.py`).

Python strings are modelled as `List Char` (named `Str`) with executable
operations mirroring the Python string methods used by the source
(`split`, `rsplit`, `replace`, `strip`, `lower`, `startswith`, the `in`
substring test, `int()`).  The filesystem is a map from paths to optional
byte contents; network traffic is an oracle supplied as a function, so a
download attempt is a lookup and an exception is the oracle answering
`none`.  Writes in the model always succeed; every fallible Python
operation that the source catches is represented by an `Option` answer.
-/

namespace GetTweet

/-- Python strings, modelled as explicit character lists so that all
operations reduce inside the kernel. -/
abbrev Str := List Char

/-- Embed a Lean string literal into the model. -/
def strOf (s : String) : Str := s.data

/-- Python `s.startswith(pat)`. -/
def startsWithL : Str → Str → Bool
  | _, [] => true
  | [], _ => false
  | c :: cs, d :: ds => (c == d) && startsWithL cs ds

/-- Python `pat in s` (substring containment). -/
def containsSubL : Str → Str → Bool
  | [], pat => pat.isEmpty
  | c :: cs, pat => startsWithL (c :: cs) pat || containsSubL cs pat

/-- Worker for `splitOnL`; the fuel argument is bounded by the length of
the string being split, which makes the recursion structural. -/
def splitOnGo (pat : Str) : Nat → Str → Str → List Str
  | _, [], acc => [acc.reverse]
  | 0, s, acc => [acc.reverse ++ s]
  | fuel + 1, c :: cs, acc =>
    if pat ≠ [] ∧ startsWithL (c :: cs) pat then
      acc.reverse :: splitOnGo pat fuel (List.drop pat.length (c :: cs)) []
    else splitOnGo pat fuel cs (c :: acc)

/-- Python `s.split(pat)` for a non-empty separator: non-overlapping
occurrences scanned left to right. -/
def splitOnL (s pat : Str) : List Str :=
  if pat = [] then [s] else splitOnGo pat s.length s []

/-- Python `sep.join(parts)`. -/
def intercalateL (sep : Str) : List Str → Str
  | [] => []
  | [x] => x
  | x :: y :: rest => x ++ sep ++ intercalateL sep (y :: rest)

/-- Python `s.replace(old, new)` for the non-empty `old` patterns used by
the source. -/
def replaceL (s old new : Str) : Str :=
  if old = [] then s else intercalateL new (splitOnL s old)

/-- The whitespace characters stripped by Python `str.strip()` that can
occur in the inputs of this development. -/
def isSpaceC (c : Char) : Bool :=
  c == ' ' || c == '\t' || c == '\n' || c == '\r'

/-- Python `s.strip()`. -/
def trimL (s : Str) : Str :=
  ((s.dropWhile isSpaceC).reverse.dropWhile isSpaceC).reverse

/-- Python `s.lower()`. -/
def toLowerL (s : Str) : Str := s.map Char.toLower

/-- Value of a decimal digit character. -/
def digitVal (c : Char) : Option Nat :=
  if 48 ≤ c.toNat ∧ c.toNat ≤ 57 then some (c.toNat - 48) else none

/-- Accumulating decimal parser over a digit run. -/
def digitsToNatGo : Str → Nat → Option Nat
  | [], acc => some acc
  | c :: cs, acc =>
    match digitVal c with
    | some d => digitsToNatGo cs (acc * 10 + d)
    | none => none

/-- Python `int(s)`: optional surrounding whitespace, optional sign, then
a non-empty digit run; any other shape raises, modelled as `none`. -/
def toIntL (s : Str) : Option Int :=
  match trimL s with
  | [] => none
  | '-' :: rest =>
    match rest with
    | [] => none
    | _ => (digitsToNatGo rest 0).map (fun n => -(n : Int))
  | '+' :: rest =>
    match rest with
    | [] => none
    | _ => (digitsToNatGo rest 0).map (fun n => (n : Int))
  | t => (digitsToNatGo t 0).map (fun n => (n : Int))

/-- Decimal rendering of a natural number (Python `str(n)` / f-string). -/
def natToStrGo : Nat → Nat → Str
  | 0, _ => []
  | fuel + 1, n =>
    if n < 10 then [Char.ofNat (48 + n)]
    else natToStrGo fuel (n / 10) ++ [Char.ofNat (48 + n % 10)]

/-- Python `str(n)` for a natural number. -/
def natToStr (n : Nat) : Str := natToStrGo (n + 1) n

/-- Python `f"{n:05d}"`. -/
def pad5 (n : Nat) : Str :=
  let s := natToStr n
  List.replicate (5 - s.length) '0' ++ s

/-- File contents: a list of bytes. -/
abbrev Bytes := List Nat

/-- A filesystem path.  Segment files created by `_download_segments`
inside a fresh `tempfile.mkdtemp` scratch directory are kept structured
(`seg dir idx` renders as `dir/segment_{idx:05d}.ts`); every other path
is a rendered string.  Because the scratch directory is freshly created
by `mkdtemp`, segment files never collide with other files, which the
two constructors capture. -/
inductive FsPath where
  | plain (s : Str)
  | seg (dir : Str) (idx : Nat)
deriving DecidableEq

/-- Render a path the way `str(path)` does in the source. -/
def renderPath : FsPath → Str
  | FsPath.plain s => s
  | FsPath.seg d i => d ++ strOf "/segment_" ++ pad5 i ++ strOf ".ts"

/-- The filesystem: `none` means the file does not exist. -/
def FS := FsPath → Option Bytes

/-- Writing a file (`open(..., 'wb')` followed by a complete write, or the
atomic temp-file-then-rename used by `_download_single_media`). -/
def FS.setFile (fs : FS) (p : FsPath) (b : Bytes) : FS :=
  fun q => if q = p then some b else fs q

/-- The empty filesystem. -/
def fsEmpty : FS := fun _ => none

/-- The directory configuration consumed from `config.Config`. -/
structure Config where
  imagesDir : Str
  videosDir : Str
  outputDir : Str

/-- One media dictionary attached to a tweet (see section 3 of the spec).
`local_path = none` models the key being absent, `some none` models the
key present with value `None`, `some (some p)` the key set to a path. -/
structure MediaItem where
  type : Str
  url : Str
  media_index : Nat
  tweet_url : Option Str
  local_path : Option (Option Str)
  file_size : Option Nat

/-- The known media suffixes accepted verbatim from a URL
(media_downloader.py line 872). -/
def knownExts : List Str :=
  [strOf ".jpg", strOf ".jpeg", strOf ".png", strOf ".gif",
   strOf ".webp", strOf ".mp4", strOf ".mov", strOf ".webm"]

/-- Default extension by media type (media_downloader.py lines 890-896). -/
def defaultExt (media_type : Str) : Str :=
  if media_type = strOf "photo" then strOf ".jpg"
  else if media_type = strOf "video" ∨ media_type = strOf "animated_gif" then strOf ".mp4"
  else strOf ".bin"

/-- The suffix candidate `_get_extension` reads off the URL
(media_downloader.py lines 870-873):
`'.' + url.split('.')[-1].split('?')[0].split(':')[0]`, accepted when its
lower-casing is a known suffix. -/
def urlTrailingExt (url : Str) : Option Str :=
  if url.contains '.' then
    let lastPart := (splitOnL url (strOf ".")).getLastD []
    let beforeQ := (splitOnL lastPart (strOf "?")).headD []
    let beforeC := (splitOnL beforeQ (strOf ":")).headD []
    let ext := strOf "." ++ beforeC
    if knownExts.contains (toLowerL ext) then some ext else none
  else none

/-- The fixed content-type table of `_get_extension`
(media_downloader.py lines 876-888), in source order. -/
def ctTable : List (Str × Str) :=
  [(strOf "image/jpeg", strOf ".jpg"), (strOf "image/png", strOf ".png"),
   (strOf "image/gif", strOf ".gif"), (strOf "image/webp", strOf ".webp"),
   (strOf "video/mp4", strOf ".mp4"), (strOf "video/webm", strOf ".webm")]

/-- `_get_extension` (media_downloader.py lines 867-896).  `content_type`
is `none` when the header is missing; Python treats both `None` and the
empty string as falsy. -/
def get_extension (url media_type : Str) (content_type : Option Str) : Str :=
  match urlTrailingExt url with
  | some e => e
  | none =>
    let ct := content_type.getD []
    if ct ≠ [] then
      if containsSubL ct (strOf "image/jpeg") then strOf ".jpg"
      else if containsSubL ct (strOf "image/png") then strOf ".png"
      else if containsSubL ct (strOf "image/gif") then strOf ".gif"
      else if containsSubL ct (strOf "image/webp") then strOf ".webp"
      else if containsSubL ct (strOf "video/mp4") then strOf ".mp4"
      else if containsSubL ct (strOf "video/webm") then strOf ".webm"
      else defaultExt media_type
    else defaultExt media_type

/-- The path component of a URL: the part after `scheme://authority`,
truncated at the query or fragment.  Used only to state the
specification's wording of extension-resolution step (a), which speaks
of "the URL's path". -/
def urlPathOf (url : Str) : Str :=
  let rest :=
    match splitOnL url (strOf "://") with
    | _ :: r :: rs => intercalateL (strOf "://") (r :: rs)
    | _ => url
  let path :=
    match splitOnL rest (strOf "/") with
    | _ :: segs => strOf "/" ++ intercalateL (strOf "/") segs
    | [] => []
  (splitOnL ((splitOnL path (strOf "?")).headD []) (strOf "#")).headD []

/-- The extension policy exactly as the specification words it
(sections 4.1 and 8): step (a) inspects the trailing segment of the
URL's *path* component.  Stated only to compare against
`get_extension`, which is translated from the source. -/
def extensionPolicySpec (url media_type content_type : Str) : Str :=
  let lastSeg := (splitOnL (urlPathOf url) (strOf "/")).getLastD []
  let pathExt : Option Str :=
    if lastSeg.contains '.' then
      let e := strOf "." ++ (splitOnL lastSeg (strOf ".")).getLastD []
      if knownExts.contains (toLowerL e) then some e else none
    else none
  match pathExt with
  | some e => e
  | none =>
    if content_type ≠ [] then
      match ctTable.find? (fun kv => containsSubL content_type kv.1) with
      | some kv => kv.2
      | none => defaultExt media_type
    else defaultExt media_type

/-- The answer the network oracle gives to one GET attempt of the direct
download loop: either an HTTP response (status code, content-type header,
body) or an exception raised during the request (timeout, reset, ...). -/
inductive FetchResp where
  | status (code : Nat) (contentType : Option Str) (body : Bytes)
  | netError
deriving DecidableEq

/-- Observable events of a fetch: GET requests and `time.sleep` calls. -/
inductive Ev where
  | get (url : Str)
  | sleep (secs : Nat)
deriving DecidableEq

/-- Number of GET requests in an event trace. -/
def countGet (tr : List Ev) : Nat :=
  (tr.filter (fun e => match e with | Ev.get _ => true | Ev.sleep _ => false)).length

/-- Target directory by media type (media_downloader.py lines 364-370). -/
def saveDirFor (cfg : Config) (media_type : Str) : Str :=
  if media_type = strOf "photo" ∨ media_type = strOf "video_thumbnail" then cfg.imagesDir
  else if media_type = strOf "video" ∨ media_type = strOf "animated_gif" then cfg.videosDir
  else cfg.outputDir

/-- Target file for a direct download:
`save_dir / f"{tweet_id}_{media_index}{ext}"`
(media_downloader.py lines 372-373). -/
def directSavePath (cfg : Config) (media_type tweetId : Str) (mediaIndex : Nat)
    (ext : Str) : FsPath :=
  FsPath.plain (saveDirFor cfg media_type ++ strOf "/" ++ tweetId ++ strOf "_"
    ++ natToStr mediaIndex ++ ext)

/-- Output of the direct-download retry loop: the value returned to the
caller, the filesystem after the call, the `media['file_size']` entry
after the call, and the trace of GETs and sleeps performed. -/
structure FetchOut where
  result : Option FsPath
  fs : FS
  fileSize : Option Nat
  trace : List Ev

/-- The retry loop of `_download_single_media`
(media_downloader.py lines 335-408).  `net attempt` is the outcome of the
GET issued on that attempt; `remaining` counts the attempts left out of
`max_retry`, so attempt `max_retry` is the call with `remaining = 1`.
On 429 the loop sleeps `max(backoff, 900)`, doubles that (capped at 3600)
into `backoff` and retries; on any other exception - a network error or a
`raise_for_status` on a status of 400 and above - it returns `None` on
the final attempt and otherwise sleeps `backoff`, doubling it capped at
300.  On a 2xx/3xx response it computes the extension and target path,
returns the target unchanged if it already exists non-empty (without
recording a file size), and otherwise writes the body atomically and
records `media['file_size']`.  Falling off the end of the `for` loop
(a 429 on the final attempt) returns `None`. -/
def fetchLoop (net : Nat → FetchResp) (cfg : Config) (url media_type tweetId : Str)
    (mediaIndex : Nat) : FS → Option Nat → Nat → Nat → Nat → List Ev → FetchOut
  | fs, fileSize, _, 0, _, trace => ⟨none, fs, fileSize, trace⟩
  | fs, fileSize, attempt, r + 1, backoff, trace =>
    let tr := trace ++ [Ev.get url]
    match net attempt with
    | FetchResp.netError =>
      if r = 0 then ⟨none, fs, fileSize, tr⟩
      else fetchLoop net cfg url media_type tweetId mediaIndex fs fileSize
        (attempt + 1) r (min (backoff * 2) 300) (tr ++ [Ev.sleep backoff])
    | FetchResp.status code ct body =>
      if code = 429 then
        let w := max backoff 900
        fetchLoop net cfg url media_type tweetId mediaIndex fs fileSize
          (attempt + 1) r (min (w * 2) 3600) (tr ++ [Ev.sleep w])
      else if 400 ≤ code then
        if r = 0 then ⟨none, fs, fileSize, tr⟩
        else fetchLoop net cfg url media_type tweetId mediaIndex fs fileSize
          (attempt + 1) r (min (backoff * 2) 300) (tr ++ [Ev.sleep backoff])
      else
        let ext := get_extension url media_type ct
        let savePath := directSavePath cfg media_type tweetId mediaIndex ext
        match fs savePath with
        | some b =>
          if 0 < b.length then ⟨some savePath, fs, fileSize, tr⟩
          else ⟨some savePath, fs.setFile savePath body, some body.length, tr⟩
        | none => ⟨some savePath, fs.setFile savePath body, some body.length, tr⟩

/-- The URL actually fetched for an item: `_download_single_media` rewrites
photo URLs without a `format=` query to their `:large` variant
(media_downloader.py lines 326-328). -/
def normalizedUrl (media : MediaItem) : Str :=
  if media.type = strOf "photo" ∧ containsSubL media.url (strOf "?format=") = false then
    replaceL (replaceL media.url (strOf ":small") (strOf ":large")) (strOf ":thumb") (strOf ":large")
  else media.url

/-- Bandwidth of one `#EXT-X-STREAM-INF` line
(media_downloader.py lines 441-451): the first comma-separated part
containing `BANDWIDTH=` is parsed with `int()` after the marker; any
failure yields `-1`. -/
def bandwidthOf (ln : Str) : Int :=
  match (splitOnL ln (strOf ",")).find? (fun p => containsSubL p (strOf "BANDWIDTH=")) with
  | none => -1
  | some p =>
    match toIntL ((splitOnL p (strOf "BANDWIDTH=")).getLastD []) with
    | some n => n
    | none => -1

/-- The variant-selection scan of `_parse_m3u8_playlist`
(media_downloader.py lines 436-458) over the stripped non-empty lines:
each `#EXT-X-STREAM-INF` line whose following line is not a comment may
update the best (bandwidth, uri) pair when its bandwidth is strictly
greater. -/
def selectLoop : List Str → Int × Option Str → Int × Option Str
  | [], acc => acc
  | [_], acc => acc
  | ln :: next :: rest, acc =>
    let acc2 :=
      if startsWithL ln (strOf "#EXT-X-STREAM-INF") then
        let bw := bandwidthOf ln
        if startsWithL next (strOf "#") then acc
        else if acc.1 < bw then (bw, some next) else acc
      else acc
    selectLoop (next :: rest) acc2

/-- Variant selection, started from `best_bw = -1`, `best_uri = None`. -/
def selectVariant (lines : List Str) : Int × Option Str :=
  selectLoop lines (-1, none)

/-- The candidate (bandwidth, uri) pairs the scan of `selectLoop` ranges
over, in order: one per `#EXT-X-STREAM-INF` line followed by a
non-comment line. -/
def variantEntries : List Str → List (Int × Str)
  | [] => []
  | [_] => []
  | ln :: next :: rest =>
    let tail := variantEntries (next :: rest)
    if startsWithL ln (strOf "#EXT-X-STREAM-INF") then
      if startsWithL next (strOf "#") then tail else (bandwidthOf ln, next) :: tail
    else tail

/-- One update step of the bandwidth scan. -/
def selStep (acc : Int × Option Str) (e : Int × Str) : Int × Option Str :=
  if acc.1 < e.1 then (e.1, some e.2) else acc

/-- `f"{parsed.scheme}://{parsed.netloc}"` for the URLs handled here
(media_downloader.py lines 465-468 and 486-488). -/
def urlOrigin (u : Str) : Str :=
  match splitOnL u (strOf "://") with
  | scheme :: r :: rs =>
    let after := intercalateL (strOf "://") (r :: rs)
    scheme ++ strOf "://" ++ (splitOnL after (strOf "/")).headD []
  | _ => strOf "://"

/-- Python `s.rsplit("/", 1)[0]`. -/
def rsplitBase (s : Str) : Str :=
  match splitOnL s (strOf "/") with
  | [] => s
  | [_] => s
  | parts => intercalateL (strOf "/") parts.dropLast

/-- Resolution of a playlist URI against the manifest URL
(media_downloader.py lines 461-471 and 496-503): absolute URLs pass
through, root-relative URIs are joined to the origin, other URIs to the
manifest's directory. -/
def resolveUrl (m3u8Url uri : Str) : Str :=
  if startsWithL uri (strOf "http") then uri
  else if startsWithL uri (strOf "/") then urlOrigin m3u8Url ++ uri
  else rsplitBase m3u8Url ++ strOf "/" ++ uri

/-- The segment-extraction scan (media_downloader.py lines 490-503): the
stripped line after each `#EXTINF` line, when non-empty and not a
comment, is resolved into a segment URL. -/
def segLoop (m3u8Url : Str) : List Str → List Str
  | [] => []
  | [_] => []
  | ln :: next :: rest =>
    let tail := segLoop m3u8Url (next :: rest)
    if startsWithL (trimL ln) (strOf "#EXTINF") then
      let s := trimL next
      if s ≠ [] ∧ startsWithL s (strOf "#") = false then resolveUrl m3u8Url s :: tail
      else tail
    else tail

/-- Segment extraction from a media playlist body. -/
def extractSegments (m3u8Url text : Str) : List Str :=
  segLoop m3u8Url (splitOnL text (strOf "\n"))

/-- The stripped non-empty lines a master playlist is scanned through
(media_downloader.py line 438). -/
def strippedLines (text : Str) : List Str :=
  ((splitOnL text (strOf "\n")).map trimL).filter (fun l => l ≠ [])

/-- `_parse_m3u8_playlist` (media_downloader.py lines 411-516) as a
function of the manifest oracle `netText` (`none` models a fetch error,
which the source catches and turns into `[]`).  Returns the segment URL
list together with the list of manifest URLs that were requested.  The
`fuel` argument bounds the master-playlist recursion depth; the Python
original relies on the recursion error being caught by the same
`except` clause. -/
def parse_m3u8_playlist (netText : Str → Option Str) :
    Nat → Str → Str → List Str × List Str
  | 0, _, _ => ([], [])
  | fuel + 1, m3u8Url, referer =>
    match netText m3u8Url with
    | none => ([], [m3u8Url])
    | some text =>
      if containsSubL text (strOf "#EXT-X-STREAM-INF") then
        match (selectVariant (strippedLines text)).2 with
        | some uri =>
          let pr := parse_m3u8_playlist netText fuel (resolveUrl m3u8Url uri) referer
          (pr.1, m3u8Url :: pr.2)
        | none => (extractSegments m3u8Url text, [m3u8Url])
      else (extractSegments m3u8Url text, [m3u8Url])

/-- `_download_segments` (media_downloader.py lines 518-560) over the
enumerated segment URLs: a failed GET (`none`) is logged and skipped, a
successful one is written to `temp_dir/segment_{idx:05d}.ts` and its
path appended to the result. -/
def download_segments_go (netBin : Str → Option Bytes) (tempDir : Str) :
    FS → List (Nat × Str) → FS × List FsPath
  | fs, [] => (fs, [])
  | fs, (idx, u) :: rest =>
    match netBin u with
    | none => download_segments_go netBin tempDir fs rest
    | some b =>
      let p := FsPath.seg tempDir idx
      let out := download_segments_go netBin tempDir (fs.setFile p b) rest
      (out.1, p :: out.2)

/-- `_download_segments` applied to a segment URL list. -/
def download_segments (netBin : Str → Option Bytes) (tempDir : Str) (fs : FS)
    (urls : List Str) : FS × List FsPath :=
  download_segments_go netBin tempDir fs urls.enum

/-- `_concatenate_segments` (media_downloader.py lines 562-593): with no
segment paths it returns `False`; otherwise it binary-appends the
contents of every path that exists, in order, into the output file and
reports whether the output exists and is non-empty. -/
def concatenate_segments (fs : FS) (paths : List FsPath) (outPath : FsPath) :
    FS × Bool :=
  match paths with
  | [] => (fs, false)
  | _ =>
    let content := paths.foldl (fun acc p =>
      match fs p with
      | some b => acc ++ b
      | none => acc) ([] : Bytes)
    (fs.setFile outPath content, decide (0 < content.length))

/-- The environment a download runs against: directory configuration,
the per-attempt oracle for direct GETs (indexed by URL and attempt
number), the manifest and segment oracles, availability and behaviour of
the external `ffmpeg` encoder (`convert` returns the bytes of the mp4 the
subprocess produced, or `none` when it raised/timed out), and the
recursion fuel for nested master playlists. -/
structure Env where
  cfg : Config
  net : Str → Nat → FetchResp
  netText : Str → Option Str
  netBin : Str → Option Bytes
  ffmpegAvailable : Bool
  convert : Bytes → Option Bytes
  fuel : Nat

/-- The `.mp4` target of the HLS reconstructor
(media_downloader.py line 611). -/
def hlsMp4Path (cfg : Config) (tweetId : Str) (mediaIndex : Nat) : FsPath :=
  FsPath.plain (cfg.videosDir ++ strOf "/" ++ tweetId ++ strOf "_"
    ++ natToStr mediaIndex ++ strOf ".mp4")

/-- The `.ts` fallback deliverable of the HLS reconstructor
(media_downloader.py line 680). -/
def hlsTsPath (cfg : Config) (tweetId : Str) (mediaIndex : Nat) : FsPath :=
  FsPath.plain (cfg.videosDir ++ strOf "/" ++ tweetId ++ strOf "_"
    ++ natToStr mediaIndex ++ strOf ".ts")

/-- Result of one HLS reconstruction: the returned path (or `None`), the
filesystem afterwards, and every URL that was requested. -/
structure HlsOut where
  result : Option FsPath
  fs : FS
  requested : List Str

/-- The `finally: shutil.rmtree(temp_dir, ...)` cleanup
(media_downloader.py lines 697-703): every file of the scratch directory
disappears. -/
def hlsCleanup (fs : FS) (tempDir : Str) : FS :=
  fun p =>
    match p with
    | FsPath.seg d _ => if d = tempDir then none else fs p
    | FsPath.plain s => if s = tempDir ++ strOf "/combined.ts" then none else fs p

/-- The body of `_download_hls_by_segments` past the already-exists check
(media_downloader.py lines 618-703): parse the playlist, fail on an empty
segment list, download the segments into a scratch directory, fail when
none succeeded, concatenate them into `combined.ts`, fail when that
failed, then remux to mp4 when `ffmpeg` is available and its output is
non-empty, falling back to moving the raw `.ts` next to the mp4 target.
The scratch directory is cleaned up on every exit of this part. -/
def hlsAfterCheck (env : Env) (fs : FS) (m3u8Url tweetId : Str) (mediaIndex : Nat)
    (referer : Str) (savePath : FsPath) : HlsOut :=
  let pr := parse_m3u8_playlist env.netText env.fuel m3u8Url referer
  match pr.1, pr.2 with
  | [], reqs => ⟨none, fs, reqs⟩
  | segUrls@(_ :: _), reqs =>
    let tempDir := strOf "hls_" ++ tweetId ++ strOf "_" ++ natToStr mediaIndex ++ strOf "_scratch"
    let dl := download_segments env.netBin tempDir fs segUrls
    let reqs2 := reqs ++ segUrls
    match dl.2 with
    | [] => ⟨none, hlsCleanup dl.1 tempDir, reqs2⟩
    | segPaths@(_ :: _) =>
      let tempTs := FsPath.plain (tempDir ++ strOf "/combined.ts")
      let cc := concatenate_segments dl.1 segPaths tempTs
      if cc.2 = false then ⟨none, hlsCleanup cc.1 tempDir, reqs2⟩
      else
        let tsContent := (cc.1 tempTs).getD []
        let tsSave := hlsTsPath env.cfg tweetId mediaIndex
        let fallback : HlsOut :=
          ⟨some tsSave, hlsCleanup (cc.1.setFile tsSave tsContent) tempDir, reqs2⟩
        if env.ffmpegAvailable then
          match env.convert tsContent with
          | some outBytes =>
            if 0 < outBytes.length then
              ⟨some savePath, hlsCleanup (cc.1.setFile savePath outBytes) tempDir, reqs2⟩
            else fallback
          | none => fallback
        else fallback

/-- `_download_hls_by_segments` (media_downloader.py lines 595-703).  The
already-exists check inspects only the `.mp4` target: when it exists with
size greater than zero the call returns it with no network traffic. -/
def download_hls_by_segments (env : Env) (fs : FS) (m3u8Url tweetId : Str)
    (mediaIndex : Nat) (referer : Str) : HlsOut :=
  let savePath := hlsMp4Path env.cfg tweetId mediaIndex
  match fs savePath with
  | some b =>
    if 0 < b.length then ⟨some savePath, fs, []⟩
    else hlsAfterCheck env fs m3u8Url tweetId mediaIndex referer savePath
  | none => hlsAfterCheck env fs m3u8Url tweetId mediaIndex referer savePath

/-- Result of `_download_single_media`: the returned path, the filesystem
afterwards, the media dictionary afterwards, and the trace of network
events. -/
structure FetchResult where
  result : Option FsPath
  fs : FS
  media : MediaItem
  trace : List Ev

/-- The Referer derivation of `_download_single_media`
(media_downloader.py lines 318-323): the stored tweet URL when truthy,
the generic site root otherwise. -/
def refererOf (media : MediaItem) : Str :=
  match media.tweet_url with
  | some r => if r = [] then strOf "https://twitter.com/" else r
  | none => strOf "https://twitter.com/"

/-- `_download_single_media` (media_downloader.py lines 304-408): reject
an absent or `blob:` URL, derive the Referer, normalize photo URLs,
delegate `.m3u8` URLs to the HLS reconstructor (which does not touch the
media dictionary), and otherwise run the 3-attempt retry loop starting
from a 60-second backoff, writing `file_size` back into the media
dictionary. -/
def download_single_media (env : Env) (fs : FS) (media : MediaItem)
    (tweetId : Str) : FetchResult :=
  if media.url = [] then ⟨none, fs, media, []⟩
  else if startsWithL media.url (strOf "blob:") then ⟨none, fs, media, []⟩
  else
    let referer := refererOf media
    let url := normalizedUrl media
    if containsSubL url (strOf ".m3u8") then
      let out := download_hls_by_segments env fs url tweetId media.media_index referer
      ⟨out.result, out.fs, media, out.requested.map Ev.get⟩
    else
      let out := fetchLoop (env.net url) env.cfg url media.type tweetId
        media.media_index fs media.file_size 1 3 60 []
      ⟨out.result, out.fs, { media with file_size := out.fileSize }, out.trace⟩

/-- The Referer bookkeeping of the synchronous dispatcher
(media_downloader.py lines 132-134): the tweet URL is copied into the
media dictionary when present there and absent here. -/
def injectTweetUrl (tweetUrl : Option Str) (media : MediaItem) : MediaItem :=
  match tweetUrl, media.tweet_url with
  | some tu, none => if tu = [] then media else { media with tweet_url := some tu }
  | _, _ => media

/-- Processing of one media item by the synchronous dispatcher
`download_media` (media_downloader.py lines 130-140): on a successful
fetch `local_path` is set to the returned path; a `None` return leaves
the dictionary as the fetch left it. -/
def processMediaSync (env : Env) (fs : FS) (tweetId : Str) (tweetUrl : Option Str)
    (media : MediaItem) : FS × MediaItem :=
  let out := download_single_media env fs (injectTweetUrl tweetUrl media) tweetId
  match out.result with
  | some p => (out.fs, { out.media with local_path := some (some (renderPath p)) })
  | none => (out.fs, out.media)

/-- Processing of one media item by the queued/parallel worker
(media_downloader.py lines 176-194, 209-227 and 230-241): a successful
future sets `local_path` to the returned path, a `None` result or an
exception sets `local_path` to `None` - the key becomes present with a
null value. -/
def processMediaWorker (env : Env) (fs : FS) (tweetId : Str) (media : MediaItem) :
    FS × MediaItem :=
  let out := download_single_media env fs media tweetId
  match out.result with
  | some p => (out.fs, { out.media with local_path := some (some (renderPath p)) })
  | none => (out.fs, { out.media with local_path := some none })

/-! ### Concrete fixtures used by counterexamples and witnesses -/

/-- A small directory configuration. -/
def cfg0 : Config := ⟨strOf "imgs", strOf "vids", strOf "out"⟩

/-- An environment whose direct GETs always answer 200 with an
`image/png` content type and a 2-byte body. -/
def env0 : Env :=
  ⟨cfg0, fun _ _ => FetchResp.status 200 (some (strOf "image/png")) [9, 9],
   fun _ => none, fun _ => none, false, fun _ => none, 0⟩

/-- A filesystem already holding a non-empty `imgs/t1_0.png`. -/
def fs0 : FS :=
  fun p => if p = FsPath.plain (strOf "imgs/t1_0.png") then some [7, 7, 7] else none

/-- A photo item whose target file `fs0` already holds. -/
def media0 : MediaItem :=
  ⟨strOf "photo", strOf "https://x/a.png", 0,
   some (strOf "https://twitter.com/u/status/1"), none, none⟩

/-- An environment whose direct GETs always fail, holding one HLS media
playlist with a single segment, and no `ffmpeg`. -/
def env2 : Env :=
  ⟨cfg0, fun _ _ => FetchResp.netError,
   fun u => if u = strOf "https://h/v/index.m3u8"
     then some (strOf "#EXTM3U\n#EXTINF:2.0,\nseg0.ts\n") else none,
   fun u => if u = strOf "https://h/v/seg0.ts" then some [1, 2, 3] else none,
   false, fun _ => none, 2⟩

/-- A video item pointing at the HLS manifest of `env2`. -/
def media2 : MediaItem :=
  ⟨strOf "video", strOf "https://h/v/index.m3u8", 0, none, none, none⟩

/-- A direct video item (no `.m3u8` in the URL). -/
def mediaF : MediaItem :=
  ⟨strOf "video", strOf "https://x/v.bin", 0, none, none, none⟩

/-- A manifest oracle holding a two-variant master playlist and the media
playlist of its higher-bandwidth variant. -/
def netTextC6 : Str → Option Str :=
  fun u =>
    if u = strOf "https://h/m.m3u8" then
      some (strOf "#EXT-X-STREAM-INF:BANDWIDTH=500000\nlow.m3u8\n#EXT-X-STREAM-INF:BANDWIDTH=1200000\nhigh.m3u8\n")
    else if u = strOf "https://h/high.m3u8" then
      some (strOf "#EXTINF:1,\ns0.ts\n")
    else none

/-- A per-attempt oracle that always answers 429. -/
def net429 : Nat → FetchResp := fun _ => FetchResp.status 429 none []

/-- A segment oracle delivering 10 bytes for `s0`, a failure for `s1`
and 20 bytes for `s2`. -/
def netBinW : Str → Option Bytes :=
  fun u =>
    if u = strOf "s0" then some (List.replicate 10 1)
    else if u = strOf "s2" then some (List.replicate 20 2)
    else none

/-- A filesystem holding only the non-empty `.ts` deliverable of a
previous HLS fallback run. -/
def fsC9 : FS :=
  fun p => if p = FsPath.plain (strOf "vids/t1_0.ts") then some [5] else none

/-! ### Lemmas about the direct-download retry loop -/

theorem countGet_append (l1 l2 : List Ev) :
    countGet (l1 ++ l2) = countGet l1 + countGet l2 := by
  simp [countGet, List.filter_append]

theorem countGet_sleep (s : Nat) : countGet [Ev.sleep s] = 0 := rfl

theorem countGet_get (u : Str) : countGet [Ev.get u] = 1 := rfl

theorem countGet_pair (u : Str) (s : Nat) : countGet [Ev.get u, Ev.sleep s] = 1 := rfl

/-- A 429 response: sleep `max(backoff, 900)`, double that capped at
3600, and consume one attempt. -/
theorem fetchLoop_429_step (net : Nat → FetchResp) (cfg : Config)
    (u mt t : Str) (i : Nat) (fs : FS) (z : Option Nat) (a r b : Nat)
    (tr : List Ev) (ct : Option Str) (body : Bytes)
    (h : net a = FetchResp.status 429 ct body) :
    fetchLoop net cfg u mt t i fs z a (r + 1) b tr
      = fetchLoop net cfg u mt t i fs z (a + 1) r (min ((max b 900) * 2) 3600)
          ((tr ++ [Ev.get u]) ++ [Ev.sleep (max b 900)]) := by
  simp [fetchLoop, h]

/-- A network exception on a non-final attempt: sleep `backoff`, double
it capped at 300, and consume one attempt. -/
theorem fetchLoop_error_step (net : Nat → FetchResp) (cfg : Config)
    (u mt t : Str) (i : Nat) (fs : FS) (z : Option Nat) (a r b : Nat)
    (tr : List Ev) (h : net a = FetchResp.netError) :
    fetchLoop net cfg u mt t i fs z a (r + 2) b tr
      = fetchLoop net cfg u mt t i fs z (a + 1) (r + 1) (min (b * 2) 300)
          ((tr ++ [Ev.get u]) ++ [Ev.sleep b]) := by
  simp [fetchLoop, h]

/-- A network exception on the final attempt returns `None`. -/
theorem fetchLoop_error_last (net : Nat → FetchResp) (cfg : Config)
    (u mt t : Str) (i : Nat) (fs : FS) (z : Option Nat) (a b : Nat)
    (tr : List Ev) (h : net a = FetchResp.netError) :
    fetchLoop net cfg u mt t i fs z a 1 b tr
      = ⟨none, fs, z, tr ++ [Ev.get u]⟩ := by
  simp [fetchLoop, h]

/-- A 2xx/3xx response whose target already exists non-empty returns the
target path with no write and no file-size record. -/
theorem fetchLoop_success_skip (net : Nat → FetchResp) (cfg : Config)
    (u mt t : Str) (i : Nat) (fs : FS) (z : Option Nat) (a r b : Nat)
    (tr : List Ev) (code : Nat) (ct : Option Str) (body bb : Bytes)
    (hnet : net a = FetchResp.status code ct body) (h429 : code ≠ 429)
    (hok : code < 400)
    (hfs : fs (directSavePath cfg mt t i (get_extension u mt ct)) = some bb)
    (hlen : 0 < bb.length) :
    fetchLoop net cfg u mt t i fs z a (r + 1) b tr
      = ⟨some (directSavePath cfg mt t i (get_extension u mt ct)), fs, z,
          tr ++ [Ev.get u]⟩ := by
  simp [fetchLoop, hnet, h429, Nat.not_le.mpr hok, hfs, hlen]

/-- A 2xx/3xx response whose target is missing or empty streams the body
into the target and records its length. -/
theorem fetchLoop_success_write (net : Nat → FetchResp) (cfg : Config)
    (u mt t : Str) (i : Nat) (fs : FS) (z : Option Nat) (a r b : Nat)
    (tr : List Ev) (code : Nat) (ct : Option Str) (body : Bytes)
    (hnet : net a = FetchResp.status code ct body) (h429 : code ≠ 429)
    (hok : code < 400)
    (hfs : fs (directSavePath cfg mt t i (get_extension u mt ct)) = none
      ∨ fs (directSavePath cfg mt t i (get_extension u mt ct)) = some []) :
    fetchLoop net cfg u mt t i fs z a (r + 1) b tr
      = ⟨some (directSavePath cfg mt t i (get_extension u mt ct)),
          fs.setFile (directSavePath cfg mt t i (get_extension u mt ct)) body,
          some body.length, tr ++ [Ev.get u]⟩ := by
  rcases hfs with hfs | hfs <;>
    simp [fetchLoop, hnet, h429, Nat.not_le.mpr hok, hfs]

/-- If the loop returns `None` it has neither written a file nor recorded
a file size. -/
theorem fetchLoop_none_frame (net : Nat → FetchResp) (cfg : Config)
    (u mt t : Str) (i : Nat) (fs : FS) (z : Option Nat) :
    ∀ (remaining a b : Nat) (tr : List Ev),
    (fetchLoop net cfg u mt t i fs z a remaining b tr).result = none →
    (fetchLoop net cfg u mt t i fs z a remaining b tr).fs = fs
    ∧ (fetchLoop net cfg u mt t i fs z a remaining b tr).fileSize = z := by
  intro remaining
  induction remaining with
  | zero => intro a b tr _; exact ⟨rfl, rfl⟩
  | succ r ih =>
    intro a b tr hres
    cases hnet : net a with
    | status code ct body =>
      by_cases h429 : code = 429
      · subst h429
        rw [fetchLoop_429_step net cfg u mt t i fs z a r b tr ct body hnet] at hres ⊢
        exact ih _ _ _ hres
      · by_cases hge : 400 ≤ code
        · cases r with
          | zero =>
            simp [fetchLoop, hnet, h429, hge]
          | succ r2 =>
            have hstep : fetchLoop net cfg u mt t i fs z a (r2 + 2) b tr
                = fetchLoop net cfg u mt t i fs z (a + 1) (r2 + 1) (min (b * 2) 300)
                    ((tr ++ [Ev.get u]) ++ [Ev.sleep b]) := by
              simp [fetchLoop, hnet, h429, hge]
            rw [hstep] at hres ⊢
            exact ih _ _ _ hres
        · exfalso
          have hok : code < 400 := Nat.not_le.mp hge
          rcases hget : fs (directSavePath cfg mt t i (get_extension u mt ct)) with _ | bb
          · rw [fetchLoop_success_write net cfg u mt t i fs z a r b tr code ct body hnet h429 hok (Or.inl hget)] at hres
            simp at hres
          · by_cases hlen : 0 < bb.length
            · rw [fetchLoop_success_skip net cfg u mt t i fs z a r b tr code ct body bb hnet h429 hok hget hlen] at hres
              simp at hres
            · have hbb : bb = [] := List.length_eq_zero.mp (Nat.eq_zero_of_not_pos hlen)
              subst hbb
              rw [fetchLoop_success_write net cfg u mt t i fs z a r b tr code ct body hnet h429 hok (Or.inr hget)] at hres
              simp at hres
    | netError =>
      cases r with
      | zero =>
        rw [fetchLoop_error_last net cfg u mt t i fs z a b tr hnet]
        exact ⟨rfl, rfl⟩
      | succ r2 =>
        rw [fetchLoop_error_step net cfg u mt t i fs z a r2 b tr hnet] at hres ⊢
        exact ih _ _ _ hres

/-- If the loop returns a path, it either short-circuited on an existing
non-empty target, leaving the filesystem and `file_size` untouched, or
it wrote the response body to the target and recorded its length. -/
theorem fetchLoop_some_spec (net : Nat → FetchResp) (cfg : Config)
    (u mt t : Str) (i : Nat) (fs : FS) (z : Option Nat) :
    ∀ (remaining a b : Nat) (tr : List Ev) (p : FsPath),
    (fetchLoop net cfg u mt t i fs z a remaining b tr).result = some p →
    ((fetchLoop net cfg u mt t i fs z a remaining b tr).fs = fs
      ∧ (fetchLoop net cfg u mt t i fs z a remaining b tr).fileSize = z
      ∧ ∃ bb, fs p = some bb ∧ 0 < bb.length)
    ∨ (∃ body, (fetchLoop net cfg u mt t i fs z a remaining b tr).fs = fs.setFile p body
        ∧ (fetchLoop net cfg u mt t i fs z a remaining b tr).fileSize = some body.length) := by
  intro remaining
  induction remaining with
  | zero => intro a b tr p hres; simp [fetchLoop] at hres
  | succ r ih =>
    intro a b tr p hres
    cases hnet : net a with
    | status code ct body =>
      by_cases h429 : code = 429
      · subst h429
        rw [fetchLoop_429_step net cfg u mt t i fs z a r b tr ct body hnet] at hres ⊢
        exact ih _ _ _ _ hres
      · by_cases hge : 400 ≤ code
        · cases r with
          | zero => simp [fetchLoop, hnet, h429, hge] at hres
          | succ r2 =>
            have hstep : fetchLoop net cfg u mt t i fs z a (r2 + 2) b tr
                = fetchLoop net cfg u mt t i fs z (a + 1) (r2 + 1) (min (b * 2) 300)
                    ((tr ++ [Ev.get u]) ++ [Ev.sleep b]) := by
              simp [fetchLoop, hnet, h429, hge]
            rw [hstep] at hres ⊢
            exact ih _ _ _ _ hres
        · have hok : code < 400 := Nat.not_le.mp hge
          rcases hget : fs (directSavePath cfg mt t i (get_extension u mt ct)) with _ | bb
          · rw [fetchLoop_success_write net cfg u mt t i fs z a r b tr code ct body hnet h429 hok (Or.inl hget)] at hres ⊢
            simp only at hres
            cases hres
            exact Or.inr ⟨body, rfl, rfl⟩
          · by_cases hlen : 0 < bb.length
            · rw [fetchLoop_success_skip net cfg u mt t i fs z a r b tr code ct body bb hnet h429 hok hget hlen] at hres ⊢
              simp only at hres
              cases hres
              exact Or.inl ⟨rfl, rfl, bb, hget, hlen⟩
            · have hbb : bb = [] := List.length_eq_zero.mp (Nat.eq_zero_of_not_pos hlen)
              subst hbb
              rw [fetchLoop_success_write net cfg u mt t i fs z a r b tr code ct body hnet h429 hok (Or.inr hget)] at hres ⊢
              simp only at hres
              cases hres
              exact Or.inr ⟨body, rfl, rfl⟩
    | netError =>
      cases r with
      | zero =>
        rw [fetchLoop_error_last net cfg u mt t i fs z a b tr hnet] at hres
        simp at hres
      | succ r2 =>
        rw [fetchLoop_error_step net cfg u mt t i fs z a r2 b tr hnet] at hres ⊢
        exact ih _ _ _ _ hres

/-- The loop performs at most one GET per remaining attempt. -/
theorem fetchLoop_countGet (net : Nat → FetchResp) (cfg : Config)
    (u mt t : Str) (i : Nat) (fs : FS) (z : Option Nat) :
    ∀ (remaining a b : Nat) (tr : List Ev),
    countGet (fetchLoop net cfg u mt t i fs z a remaining b tr).trace
      ≤ countGet tr + remaining := by
  intro remaining
  induction remaining with
  | zero => intro a b tr; simp [fetchLoop]
  | succ r ih =>
    intro a b tr
    cases hnet : net a with
    | status code ct body =>
      by_cases h429 : code = 429
      · subst h429
        rw [fetchLoop_429_step net cfg u mt t i fs z a r b tr ct body hnet]
        calc countGet (fetchLoop net cfg u mt t i fs z (a + 1) r
                (min ((max b 900) * 2) 3600) ((tr ++ [Ev.get u]) ++ [Ev.sleep (max b 900)])).trace
            ≤ countGet ((tr ++ [Ev.get u]) ++ [Ev.sleep (max b 900)]) + r := ih _ _ _
          _ = countGet tr + 1 + r := by
              simp [countGet_append, countGet_get, countGet_sleep, countGet_pair]
          _ ≤ countGet tr + (r + 1) := by omega
      · by_cases hge : 400 ≤ code
        · cases r with
          | zero =>
            simp [fetchLoop, hnet, h429, hge, countGet_append, countGet_get]
          | succ r2 =>
            have hstep : fetchLoop net cfg u mt t i fs z a (r2 + 2) b tr
                = fetchLoop net cfg u mt t i fs z (a + 1) (r2 + 1) (min (b * 2) 300)
                    ((tr ++ [Ev.get u]) ++ [Ev.sleep b]) := by
              simp [fetchLoop, hnet, h429, hge]
            rw [hstep]
            calc countGet (fetchLoop net cfg u mt t i fs z (a + 1) (r2 + 1)
                    (min (b * 2) 300) ((tr ++ [Ev.get u]) ++ [Ev.sleep b])).trace
                ≤ countGet ((tr ++ [Ev.get u]) ++ [Ev.sleep b]) + (r2 + 1) := ih _ _ _
              _ = countGet tr + 1 + (r2 + 1) := by
                  simp [countGet_append, countGet_get, countGet_sleep, countGet_pair]
              _ ≤ countGet tr + (r2 + 1 + 1) := by omega
        · have hok : code < 400 := Nat.not_le.mp hge
          rcases hget : fs (directSavePath cfg mt t i (get_extension u mt ct)) with _ | bb
          · rw [fetchLoop_success_write net cfg u mt t i fs z a r b tr code ct body hnet h429 hok (Or.inl hget)]
            simp [countGet_append, countGet_get]
          · by_cases hlen : 0 < bb.length
            · rw [fetchLoop_success_skip net cfg u mt t i fs z a r b tr code ct body bb hnet h429 hok hget hlen]
              simp [countGet_append, countGet_get]
            · have hbb : bb = [] := List.length_eq_zero.mp (Nat.eq_zero_of_not_pos hlen)
              subst hbb
              rw [fetchLoop_success_write net cfg u mt t i fs z a r b tr code ct body hnet h429 hok (Or.inr hget)]
              simp [countGet_append, countGet_get]
    | netError =>
      cases r with
      | zero =>
        rw [fetchLoop_error_last net cfg u mt t i fs z a b tr hnet]
        simp [countGet_append, countGet_get]
      | succ r2 =>
        rw [fetchLoop_error_step net cfg u mt t i fs z a r2 b tr hnet]
        calc countGet (fetchLoop net cfg u mt t i fs z (a + 1) (r2 + 1)
                (min (b * 2) 300) ((tr ++ [Ev.get u]) ++ [Ev.sleep b])).trace
            ≤ countGet ((tr ++ [Ev.get u]) ++ [Ev.sleep b]) + (r2 + 1) := ih _ _ _
          _ = countGet tr + 1 + (r2 + 1) := by
              simp [countGet_append, countGet_get, countGet_sleep, countGet_pair]
          _ ≤ countGet tr + (r2 + 1 + 1) := by omega

/-! ### Lemmas about segment download and concatenation -/

/-- `_download_segments` over indices starting at `n`: it only creates
segment files of its own scratch directory with indices at least `n`,
and reading the returned paths back from the resulting filesystem yields
exactly the successfully downloaded bodies, in playlist order. -/
theorem download_segments_go_spec (netBin : Str → Option Bytes) (tempDir : Str) :
    ∀ (l : List Str) (n : Nat) (fs : FS),
    (∀ d m, (d ≠ tempDir ∨ m < n) →
      (download_segments_go netBin tempDir fs (List.enumFrom n l)).1 (FsPath.seg d m)
        = fs (FsPath.seg d m))
    ∧ (∀ s, (download_segments_go netBin tempDir fs (List.enumFrom n l)).1 (FsPath.plain s)
        = fs (FsPath.plain s))
    ∧ ((download_segments_go netBin tempDir fs (List.enumFrom n l)).2.map
          (download_segments_go netBin tempDir fs (List.enumFrom n l)).1
        = (l.filterMap netBin).map some) := by
  intro l
  induction l with
  | nil => intro n fs; exact ⟨fun _ _ _ => rfl, fun _ => rfl, rfl⟩
  | cons u rest ih =>
    intro n fs
    have henum : List.enumFrom n (u :: rest) = (n, u) :: List.enumFrom (n + 1) rest := rfl
    rw [henum]
    cases hu : netBin u with
    | none =>
      have hgo : download_segments_go netBin tempDir fs ((n, u) :: List.enumFrom (n + 1) rest)
          = download_segments_go netBin tempDir fs (List.enumFrom (n + 1) rest) := by
        simp [download_segments_go, hu]
      rw [hgo]
      obtain ⟨hseg, hplain, hmap⟩ := ih (n + 1) fs
      refine ⟨?_, hplain, ?_⟩
      · intro d m hdm
        refine hseg d m ?_
        rcases hdm with hd | hm
        · exact Or.inl hd
        · exact Or.inr (Nat.lt_succ_of_lt hm)
      · simpa [List.filterMap_cons, hu] using hmap
    | some b =>
      have hgo : download_segments_go netBin tempDir fs ((n, u) :: List.enumFrom (n + 1) rest)
          = ((download_segments_go netBin tempDir
                (fs.setFile (FsPath.seg tempDir n) b) (List.enumFrom (n + 1) rest)).1,
             FsPath.seg tempDir n
               :: (download_segments_go netBin tempDir
                    (fs.setFile (FsPath.seg tempDir n) b) (List.enumFrom (n + 1) rest)).2) := by
        simp [download_segments_go, hu]
      rw [hgo]
      obtain ⟨hseg, hplain, hmap⟩ := ih (n + 1) (fs.setFile (FsPath.seg tempDir n) b)
      have hsetSeg : ∀ d m, FsPath.seg d m ≠ FsPath.seg tempDir n →
          (fs.setFile (FsPath.seg tempDir n) b) (FsPath.seg d m) = fs (FsPath.seg d m) := by
        intro d m hne
        simp [FS.setFile, hne]
      refine ⟨?_, ?_, ?_⟩
      · intro d m hdm
        have hne : FsPath.seg d m ≠ FsPath.seg tempDir n := by
          intro he
          injection he with h1 h2
          rcases hdm with hd | hm
          · exact hd h1
          · omega
        have h1 := hseg d m (by
          rcases hdm with hd | hm
          · exact Or.inl hd
          · exact Or.inr (Nat.lt_succ_of_lt hm))
        rw [h1, hsetSeg d m hne]
      · intro s
        have h1 := hplain s
        rw [h1]
        simp [FS.setFile]
      · simp only [List.map_cons]
        have hvaln : (download_segments_go netBin tempDir
            (fs.setFile (FsPath.seg tempDir n) b) (List.enumFrom (n + 1) rest)).1
              (FsPath.seg tempDir n) = some b := by
          have := hseg tempDir n (Or.inr (Nat.lt_succ_self n))
          rw [this]
          simp [FS.setFile]
        rw [hvaln, hmap]
        simp [List.filterMap_cons, hu]

/-- Folding the read-and-append step over paths whose contents are known
produces the flattening of those contents. -/
theorem concat_fold_of_map (fs : FS) :
    ∀ (paths : List FsPath) (goods : List Bytes) (init : Bytes),
    paths.map fs = goods.map some →
    paths.foldl (fun acc p =>
      match fs p with
      | some b => acc ++ b
      | none => acc) init = init ++ goods.flatten := by
  intro paths
  induction paths with
  | nil =>
    intro goods init h
    cases goods with
    | nil => simp
    | cons g gs => simp at h
  | cons p ps ih =>
    intro goods init h
    cases goods with
    | nil => simp at h
    | cons g gs =>
      simp only [List.map_cons, List.cons.injEq] at h
      obtain ⟨hp, hps⟩ := h
      simp only [List.foldl_cons, hp]
      rw [ih gs (init ++ g) hps]
      simp [List.flatten_cons, List.append_assoc]

/-! ### Lemmas about master-playlist variant selection -/

/-- The bandwidth scan is a left fold of `selStep` over the candidate
entries. -/
theorem selectLoop_eq_foldl :
    ∀ (lines : List Str) (acc : Int × Option Str),
    selectLoop lines acc = (variantEntries lines).foldl selStep acc := by
  intro lines
  induction lines with
  | nil => intro acc; rfl
  | cons ln rest ih =>
    intro acc
    cases rest with
    | nil => rfl
    | cons next rest2 =>
      simp only [selectLoop, variantEntries]
      by_cases h1 : startsWithL ln (strOf "#EXT-X-STREAM-INF") = true
      · simp only [h1, if_true]
        by_cases h2 : startsWithL next (strOf "#") = true
        · simp only [h2, if_true]
          exact ih acc
        · simp only [h2, if_false, List.foldl_cons]
          by_cases h3 : acc.1 < bandwidthOf ln
          · simp only [h3, if_true, selStep]
            rw [ih]
            simp [selStep, h3]
          · simp only [h3, if_false]
            rw [ih]
            simp [selStep, h3]
      · simp only [h1, if_false]
        exact ih acc

/-- The left fold of `selStep` keeps the accumulator when nothing beats
it, and otherwise lands on the first entry whose bandwidth exceeds both
the accumulator and everything before it, with nothing after it strictly
greater. -/
theorem foldl_selStep_spec :
    ∀ (entries : List (Int × Str)) (acc : Int × Option Str),
    (entries.foldl selStep acc = acc ∧ ∀ e ∈ entries, e.1 ≤ acc.1)
    ∨ (∃ l₁ b u l₂, entries = l₁ ++ (b, u) :: l₂
        ∧ entries.foldl selStep acc = (b, some u)
        ∧ acc.1 < b ∧ (∀ e ∈ l₁, e.1 < b) ∧ (∀ e ∈ l₂, e.1 ≤ b)) := by
  intro entries
  induction entries with
  | nil =>
    intro acc
    left
    exact ⟨rfl, by simp⟩
  | cons e es ih =>
    intro acc
    by_cases h : acc.1 < e.1
    · have hstep : (e :: es).foldl selStep acc = es.foldl selStep (e.1, some e.2) := by
        simp [List.foldl_cons, selStep, h]
      rcases ih (e.1, some e.2) with ⟨heq, hall⟩ | ⟨l₁, b, u, l₂, hsplit, heq, hgt, hl₁, hl₂⟩
      · right
        refine ⟨[], e.1, e.2, es, by simp, ?_, h, by simp, ?_⟩
        · rw [hstep, heq]
        · intro x hx
          exact hall x hx
      · right
        refine ⟨e :: l₁, b, u, l₂, by simp [hsplit], ?_, lt_trans h hgt, ?_, hl₂⟩
        · rw [hstep, heq]
        · intro x hx
          rcases List.mem_cons.mp hx with hx0 | hx'
          · rw [hx0]; exact hgt
          · exact hl₁ x hx'
    · have hstep : (e :: es).foldl selStep acc = es.foldl selStep acc := by
        simp [List.foldl_cons, selStep, h]
      have hle : e.1 ≤ acc.1 := not_lt.mp h
      rcases ih acc with ⟨heq, hall⟩ | ⟨l₁, b, u, l₂, hsplit, heq, hgt, hl₁, hl₂⟩
      · left
        refine ⟨by rw [hstep, heq], ?_⟩
        intro x hx
        rcases List.mem_cons.mp hx with hx0 | hx'
        · rw [hx0]; exact hle
        · exact hall x hx'
      · right
        refine ⟨e :: l₁, b, u, l₂, by simp [hsplit], by rw [hstep, heq], hgt, ?_, hl₂⟩
        intro x hx
        rcases List.mem_cons.mp hx with hx0 | hx'
        · rw [hx0]; exact lt_of_le_of_lt hle hgt
        · exact hl₁ x hx'

/-! ### Lemmas about the playlist parser and the HLS reconstructor -/

/-- With fuel left, the first URL the parser requests is the manifest it
was given, in every branch. -/
theorem parse_requests_head (netT : Str → Option Str) (fuel : Nat)
    (url referer : Str) :
    (parse_m3u8_playlist netT (fuel + 1) url referer).2.head? = some url := by
  cases ht : netT url with
  | none => simp [parse_m3u8_playlist, ht]
  | some text =>
    by_cases hc : containsSubL text (strOf "#EXT-X-STREAM-INF") = true
    · cases hu : (selectVariant (strippedLines text)).2 with
      | none => simp [parse_m3u8_playlist, ht, hc, hu]
      | some uri => simp [parse_m3u8_playlist, ht, hc, hu]
    · simp [parse_m3u8_playlist, ht, hc]

/-- Whatever branch the reconstructor body takes, the requested URLs are
exactly the manifest requests followed by every segment URL. -/
theorem hlsAfterCheck_requested (env : Env) (fs : FS) (url t : Str) (i : Nat)
    (r : Str) (sp : FsPath) :
    (hlsAfterCheck env fs url t i r sp).requested
      = (parse_m3u8_playlist env.netText env.fuel url r).2
        ++ (parse_m3u8_playlist env.netText env.fuel url r).1 := by
  simp only [hlsAfterCheck]
  rcases hp : parse_m3u8_playlist env.netText env.fuel url r with ⟨segs, reqs⟩
  cases segs with
  | nil => simp
  | cons s ss =>
    simp only
    repeat' split
    all_goals simp

/-- A parse yielding no segments fails the reconstruction. -/
theorem hlsAfterCheck_result_of_nil (env : Env) (fs : FS) (url t : Str) (i : Nat)
    (r : Str) (sp : FsPath)
    (h : (parse_m3u8_playlist env.netText env.fuel url r).1 = []) :
    hlsAfterCheck env fs url t i r sp
      = ⟨none, fs, (parse_m3u8_playlist env.netText env.fuel url r).2⟩ := by
  simp only [hlsAfterCheck]
  rcases hp : parse_m3u8_playlist env.netText env.fuel url r with ⟨segs, reqs⟩
  rw [hp] at h
  simp only at h
  subst h
  simp

/-- When the mp4 target is absent or empty, the reconstructor proceeds
into its body. -/
theorem download_hls_proceeds (env : Env) (fs : FS) (url t : Str) (i : Nat)
    (r : Str)
    (h : fs (hlsMp4Path env.cfg t i) = none ∨ fs (hlsMp4Path env.cfg t i) = some []) :
    download_hls_by_segments env fs url t i r
      = hlsAfterCheck env fs url t i r (hlsMp4Path env.cfg t i) := by
  rcases h with h | h <;> simp [download_hls_by_segments, h]

/-! ### Lemmas about the single-item fetcher dispatch -/

/-- The direct (non-HLS) branch of `_download_single_media`. -/
theorem dsm_direct (env : Env) (fs : FS) (media : MediaItem) (t : Str)
    (h0 : media.url ≠ []) (hb : startsWithL media.url (strOf "blob:") = false)
    (hm : containsSubL (normalizedUrl media) (strOf ".m3u8") = false) :
    download_single_media env fs media t
      = ⟨(fetchLoop (env.net (normalizedUrl media)) env.cfg (normalizedUrl media)
            media.type t media.media_index fs media.file_size 1 3 60 []).result,
         (fetchLoop (env.net (normalizedUrl media)) env.cfg (normalizedUrl media)
            media.type t media.media_index fs media.file_size 1 3 60 []).fs,
         { media with file_size :=
            (fetchLoop (env.net (normalizedUrl media)) env.cfg (normalizedUrl media)
              media.type t media.media_index fs media.file_size 1 3 60 []).fileSize },
         (fetchLoop (env.net (normalizedUrl media)) env.cfg (normalizedUrl media)
            media.type t media.media_index fs media.file_size 1 3 60 []).trace⟩ := by
  simp [download_single_media, h0, hb, hm]

/-- The HLS branch of `_download_single_media`: the media dictionary is
passed through untouched. -/
theorem dsm_hls (env : Env) (fs : FS) (media : MediaItem) (t : Str)
    (h0 : media.url ≠ []) (hb : startsWithL media.url (strOf "blob:") = false)
    (hm : containsSubL (normalizedUrl media) (strOf ".m3u8") = true) :
    download_single_media env fs media t
      = ⟨(download_hls_by_segments env fs (normalizedUrl media) t media.media_index
            (refererOf media)).result,
         (download_hls_by_segments env fs (normalizedUrl media) t media.media_index
            (refererOf media)).fs,
         media,
         (download_hls_by_segments env fs (normalizedUrl media) t media.media_index
            (refererOf media)).requested.map Ev.get⟩ := by
  simp [download_single_media, h0, hb, hm]

/-- No branch of the fetcher ever touches `local_path`. -/
theorem dsm_local_path (env : Env) (fs : FS) (media : MediaItem) (t : Str) :
    (download_single_media env fs media t).media.local_path = media.local_path := by
  by_cases h0 : media.url = []
  · simp [download_single_media, h0]
  · by_cases hb : startsWithL media.url (strOf "blob:") = true
    · simp [download_single_media, h0, hb]
    · have hb' : startsWithL media.url (strOf "blob:") = false := by simpa using hb
      by_cases hm : containsSubL (normalizedUrl media) (strOf ".m3u8") = true
      · rw [dsm_hls env fs media t h0 hb' hm]
      · rw [dsm_direct env fs media t h0 hb' (by simpa using hm)]

/-! ### Claim C4 -/

/-- C4, counterexample: for `https://x/a?x=b.png` the URL's *path* (`/a`)
has no known suffix, so the specified three-step policy maps
`image/jpeg` to `.jpg`; but `_get_extension` splits the whole URL on
`'.'`, picks up `png` from the query string and returns `.png`. -/
theorem C4_counterexample :
    get_extension (strOf "https://x/a?x=b.png") (strOf "photo") (some (strOf "image/jpeg"))
        = strOf ".png"
    ∧ extensionPolicySpec (strOf "https://x/a?x=b.png") (strOf "photo") (strOf "image/jpeg")
        = strOf ".jpg"
    ∧ get_extension (strOf "https://x/a?x=b.png") (strOf "photo") (some (strOf "image/jpeg"))
        ≠ extensionPolicySpec (strOf "https://x/a?x=b.png") (strOf "photo") (strOf "image/jpeg") := by
  exact ⟨by decide, by decide, by decide⟩

/-- C4 (amended): extension resolution follows the three-step policy with
step (a) reading the suffix after the last `'.'` of the *entire URL*
(truncated at the first `'?'` and then the first `':'`), not of the URL's
path component: (a) such a known suffix is returned verbatim; (b) else a
truthy `content_type` is looked up in the fixed table by substring
containment; (c) else the default by media type applies.  The four
section-8 test vectors hold. -/
theorem C4_resolution (url media_type : Str) (content_type : Option Str) :
    (∀ e, urlTrailingExt url = some e → get_extension url media_type content_type = e)
    ∧ (∀ c, urlTrailingExt url = none → c ≠ [] →
        get_extension url media_type (some c)
          = (match ctTable.find? (fun kv => containsSubL c kv.1) with
             | some kv => kv.2
             | none => defaultExt media_type))
    ∧ (urlTrailingExt url = none → (content_type = none ∨ content_type = some []) →
        get_extension url media_type content_type = defaultExt media_type)
    ∧ get_extension (strOf "https://x/a.png") (strOf "photo") (some (strOf "text/html"))
        = strOf ".png"
    ∧ get_extension (strOf "https://x/a") (strOf "photo") (some (strOf "image/webp"))
        = strOf ".webp"
    ∧ get_extension (strOf "https://x/a") (strOf "video") (some []) = strOf ".mp4"
    ∧ get_extension (strOf "https://x/a") (strOf "other") (some []) = strOf ".bin" := by
  refine ⟨?_, ?_, ?_, by decide, by decide, by decide, by decide⟩
  · intro e h
    simp [get_extension, h]
  · intro c h hc
    simp only [get_extension, h, Option.getD_some]
    rw [if_pos hc]
    by_cases h1 : containsSubL c (strOf "image/jpeg") = true
    · simp [ctTable, List.find?, h1]
    · by_cases h2 : containsSubL c (strOf "image/png") = true
      · simp [ctTable, List.find?, h1, h2]
      · by_cases h3 : containsSubL c (strOf "image/gif") = true
        · simp [ctTable, List.find?, h1, h2, h3]
        · by_cases h4 : containsSubL c (strOf "image/webp") = true
          · simp [ctTable, List.find?, h1, h2, h3, h4]
          · by_cases h5 : containsSubL c (strOf "video/mp4") = true
            · simp [ctTable, List.find?, h1, h2, h3, h4, h5]
            · by_cases h6 : containsSubL c (strOf "video/webm") = true
              · simp [ctTable, List.find?, h1, h2, h3, h4, h5, h6]
              · simp [ctTable, List.find?, h1, h2, h3, h4, h5, h6]
  · intro h hct
    rcases hct with rfl | rfl <;> simp [get_extension, h]

/-- C4, witness: step (a) applied at a URL with a `:large` size suffix. -/
theorem C4_witness :
    get_extension (strOf "https://x/a.jpg:large") (strOf "video") none = strOf ".jpg" := by
  exact (C4_resolution (strOf "https://x/a.jpg:large") (strOf "video") none).1
    (strOf ".jpg") (by decide)

/-! ### Claim C5 -/

/-- C5: on HTTP 429 the fetcher sleeps `max(current_backoff, 900)` and
continues with backoff `min(2 x that sleep, 3600)`; starting from backoff
60, three consecutive 429 answers sleep 900, then 1800, then 3600 (the
third sleep exhibiting that the second cycle set the backoff to 3600),
each cycle consuming one attempt of the 3-attempt budget. -/
theorem C5_rate_limit :
    (∀ (net : Nat → FetchResp) (cfg : Config) (u mt t : Str) (i : Nat) (fs : FS)
       (z : Option Nat) (a r b : Nat) (tr : List Ev) (ct : Option Str) (body : Bytes),
       net a = FetchResp.status 429 ct body →
       fetchLoop net cfg u mt t i fs z a (r + 1) b tr
         = fetchLoop net cfg u mt t i fs z (a + 1) r (min ((max b 900) * 2) 3600)
             ((tr ++ [Ev.get u]) ++ [Ev.sleep (max b 900)]))
    ∧ (fetchLoop net429 cfg0 (strOf "u") (strOf "video") (strOf "t") 0 fsEmpty none 1 3 60 []).trace
        = [Ev.get (strOf "u"), Ev.sleep 900, Ev.get (strOf "u"), Ev.sleep 1800,
           Ev.get (strOf "u"), Ev.sleep 3600]
    ∧ (fetchLoop net429 cfg0 (strOf "u") (strOf "video") (strOf "t") 0 fsEmpty none 1 3 60 []).result
        = none := by
  refine ⟨?_, by decide, by decide⟩
  intro net cfg u mt t i fs z a r b tr ct body h
  exact fetchLoop_429_step net cfg u mt t i fs z a r b tr ct body h

/-- C5, witness: the first 429 cycle from backoff 60 sleeps
`max(60, 900) = 900` and continues with backoff
`min(2 x 900, 3600) = 1800`. -/
theorem C5_witness :
    fetchLoop net429 cfg0 (strOf "u") (strOf "video") (strOf "t") 0 fsEmpty none 1 (0 + 1) 60 []
      = fetchLoop net429 cfg0 (strOf "u") (strOf "video") (strOf "t") 0 fsEmpty none (1 + 1) 0
          (min ((max 60 900) * 2) 3600) (([] ++ [Ev.get (strOf "u")]) ++ [Ev.sleep (max 60 900)]) := by
  exact C5_rate_limit.1 net429 cfg0 (strOf "u") (strOf "video") (strOf "t") 0 fsEmpty none
    1 0 60 [] none [] rfl

/-! ### Claim C1 -/

/-- C1, counterexample: a direct photo item whose non-empty target file
already exists still performs one GET - `_download_single_media` checks
existence only after the response arrives - so the fetch is not
zero-network-calls, although it does return the existing path. -/
theorem C1_counterexample :
    (download_single_media env0 fs0 media0 (strOf "t1")).result
        = some (FsPath.plain (strOf "imgs/t1_0.png"))
    ∧ countGet (download_single_media env0 fs0 media0 (strOf "t1")).trace = 1
    ∧ ¬ countGet (download_single_media env0 fs0 media0 (strOf "t1")).trace = 0 := by
  exact ⟨by decide, by decide, by decide⟩

/-- C1 (amended): for an HLS item whose `.mp4` target exists with
size > 0 the reconstructor performs zero network calls and returns the
existing path with the filesystem untouched; for a direct item whose
target exists with size > 0 the fetcher returns the existing path
without rewriting the file, but only after a successful GET - exactly
one network call, not zero. -/
theorem C1_idempotent_skip :
    (∀ (env : Env) (fs : FS) (m3u8Url tweetId : Str) (idx : Nat) (referer : Str) (b : Bytes),
       fs (hlsMp4Path env.cfg tweetId idx) = some b → 0 < b.length →
       download_hls_by_segments env fs m3u8Url tweetId idx referer
         = ⟨some (hlsMp4Path env.cfg tweetId idx), fs, []⟩)
    ∧ (∀ (env : Env) (fs : FS) (media : MediaItem) (tweetId : Str) (code : Nat)
         (ct : Option Str) (body bb : Bytes),
       media.url ≠ [] → startsWithL media.url (strOf "blob:") = false →
       containsSubL (normalizedUrl media) (strOf ".m3u8") = false →
       env.net (normalizedUrl media) 1 = FetchResp.status code ct body →
       code ≠ 429 → code < 400 →
       fs (directSavePath env.cfg media.type tweetId media.media_index
            (get_extension (normalizedUrl media) media.type ct)) = some bb →
       0 < bb.length →
       (download_single_media env fs media tweetId).result
           = some (directSavePath env.cfg media.type tweetId media.media_index
               (get_extension (normalizedUrl media) media.type ct))
         ∧ (download_single_media env fs media tweetId).fs = fs
         ∧ (download_single_media env fs media tweetId).trace
             = [Ev.get (normalizedUrl media)]) := by
  constructor
  · intro env fs url t i r b hfs hlen
    simp [download_hls_by_segments, hfs, hlen]
  · intro env fs media t code ct body bb h0 hb hm hnet h429 hok hfs hlen
    rw [dsm_direct env fs media t h0 hb hm]
    have h3 : (3 : Nat) = 2 + 1 := rfl
    rw [h3, fetchLoop_success_skip (env.net (normalizedUrl media)) env.cfg
      (normalizedUrl media) media.type t media.media_index fs media.file_size 1 2 60 []
      code ct body bb hnet h429 hok hfs hlen]
    exact ⟨rfl, rfl, by simp⟩

/-- C1, witness: the direct skip conclusion at the concrete fixture. -/
theorem C1_witness :
    (download_single_media env0 fs0 media0 (strOf "t1")).fs = fs0
    ∧ (download_single_media env0 fs0 media0 (strOf "t1")).trace
        = [Ev.get (normalizedUrl media0)] := by
  have h := C1_idempotent_skip.2 env0 fs0 media0 (strOf "t1") 200
    (some (strOf "image/png")) [9, 9] [7, 7, 7] (by decide) (by decide) (by decide)
    rfl (by decide) (by decide) (by decide) (by decide)
  exact ⟨h.2.1, h.2.2⟩

/-! ### Claim C2 -/

/-- C2, counterexample: an HLS reconstruction that succeeds (falling back
to the `.ts` deliverable) returns a path but records no `file_size`:
`_download_hls_by_segments` never receives the media dictionary. -/
theorem C2_counterexample :
    (download_single_media env2 fsEmpty media2 (strOf "t1")).result
        = some (FsPath.plain (strOf "vids/t1_0.ts"))
    ∧ (download_single_media env2 fsEmpty media2 (strOf "t1")).media.file_size = none := by
  exact ⟨by decide, by decide⟩

/-- C2 (amended): `file_size` is never set on failure, and the HLS path
never touches the media dictionary at all, so an HLS success records no
`file_size`; a direct success either short-circuited on an existing
non-empty file leaving `file_size` untouched, or freshly wrote the file,
in which case `file_size` equals the byte count of the final file. -/
theorem C2_file_size :
    (∀ (env : Env) (fs : FS) (media : MediaItem) (tweetId : Str) (p : FsPath),
       containsSubL (normalizedUrl media) (strOf ".m3u8") = false →
       (download_single_media env fs media tweetId).result = some p →
       ((download_single_media env fs media tweetId).media.file_size = media.file_size
          ∧ ∃ b, fs p = some b ∧ 0 < b.length)
       ∨ (∃ body, (download_single_media env fs media tweetId).fs p = some body
            ∧ (download_single_media env fs media tweetId).media.file_size
                = some body.length))
    ∧ (∀ (env : Env) (fs : FS) (media : MediaItem) (tweetId : Str),
       (download_single_media env fs media tweetId).result = none →
       (download_single_media env fs media tweetId).media.file_size = media.file_size)
    ∧ (∀ (env : Env) (fs : FS) (media : MediaItem) (tweetId : Str),
       containsSubL (normalizedUrl media) (strOf ".m3u8") = true →
       (download_single_media env fs media tweetId).media = media) := by
  refine ⟨?_, ?_, ?_⟩
  · intro env fs media t p hm hres
    by_cases h0 : media.url = []
    · simp [download_single_media, h0] at hres
    · by_cases hb : startsWithL media.url (strOf "blob:") = true
      · simp [download_single_media, h0, hb] at hres
      · have hb' : startsWithL media.url (strOf "blob:") = false := by simpa using hb
        rw [dsm_direct env fs media t h0 hb' hm] at hres ⊢
        simp only at hres
        rcases fetchLoop_some_spec (env.net (normalizedUrl media)) env.cfg
            (normalizedUrl media) media.type t media.media_index fs media.file_size
            3 1 60 [] p hres with ⟨_, hz, bb, hget, hlen⟩ | ⟨body, hfs', hz⟩
        · left
          exact ⟨by simp [hz], bb, hget, hlen⟩
        · right
          refine ⟨body, ?_, by simp [hz]⟩
          simp [hfs', FS.setFile]
  · intro env fs media t hres
    by_cases h0 : media.url = []
    · simp [download_single_media, h0]
    · by_cases hb : startsWithL media.url (strOf "blob:") = true
      · simp [download_single_media, h0, hb]
      · have hb' : startsWithL media.url (strOf "blob:") = false := by simpa using hb
        by_cases hm : containsSubL (normalizedUrl media) (strOf ".m3u8") = true
        · rw [dsm_hls env fs media t h0 hb' hm]
        · rw [dsm_direct env fs media t h0 hb' (by simpa using hm)] at hres ⊢
          simp only at hres
          have := (fetchLoop_none_frame (env.net (normalizedUrl media)) env.cfg
            (normalizedUrl media) media.type t media.media_index fs media.file_size
            3 1 60 [] hres).2
          simp [this]
  · intro env fs media t hm
    by_cases h0 : media.url = []
    · simp [download_single_media, h0]
    · by_cases hb : startsWithL media.url (strOf "blob:") = true
      · simp [download_single_media, h0, hb]
      · have hb' : startsWithL media.url (strOf "blob:") = false := by simpa using hb
        rw [dsm_hls env fs media t h0 hb' hm]

/-- C2, witness: the HLS branch leaves the media dictionary untouched at
the concrete fixture. -/
theorem C2_witness :
    (download_single_media env2 fsEmpty media2 (strOf "t1")).media = media2 := by
  exact (C2_file_size.2.2) env2 fsEmpty media2 (strOf "t1") (by decide)

/-! ### Claim C3 -/

/-- C3, counterexample: in queued/parallel mode a failed fetch does not
leave `local_path` unset - the worker writes an explicit null into the
dictionary (`media['local_path'] = None`). -/
theorem C3_counterexample :
    (download_single_media env2 fsEmpty mediaF (strOf "t1")).result = none
    ∧ (processMediaWorker env2 fsEmpty (strOf "t1") mediaF).2.local_path = some none
    ∧ ¬ (processMediaWorker env2 fsEmpty (strOf "t1") mediaF).2.local_path = none := by
  exact ⟨by decide, by decide, by decide⟩

/-- C3 (amended): starting from an absent `local_path`, a successful
fetch sets it exactly once to the returned path in both dispatcher
modes; a failed fetch leaves it absent in synchronous mode but sets it
to an explicit null in queued/parallel mode. -/
theorem C3_local_path (env : Env) (fs : FS) (tweetId : Str) (tweetUrl : Option Str)
    (media : MediaItem) (h : media.local_path = none) :
    (∀ p, (download_single_media env fs (injectTweetUrl tweetUrl media) tweetId).result = some p →
       (processMediaSync env fs tweetId tweetUrl media).2.local_path
         = some (some (renderPath p)))
    ∧ ((download_single_media env fs (injectTweetUrl tweetUrl media) tweetId).result = none →
       (processMediaSync env fs tweetId tweetUrl media).2.local_path = none)
    ∧ (∀ p, (download_single_media env fs media tweetId).result = some p →
       (processMediaWorker env fs tweetId media).2.local_path
         = some (some (renderPath p)))
    ∧ ((download_single_media env fs media tweetId).result = none →
       (processMediaWorker env fs tweetId media).2.local_path = some none) := by
  have hinj : (injectTweetUrl tweetUrl media).local_path = media.local_path := by
    cases tweetUrl with
    | none => rfl
    | some tu =>
      cases htu : media.tweet_url with
      | none => simp [injectTweetUrl, htu]; split <;> rfl
      | some r => simp [injectTweetUrl, htu]
  refine ⟨?_, ?_, ?_, ?_⟩
  · intro p hp
    simp [processMediaSync, hp]
  · intro hres
    simp only [processMediaSync, hres]
    rw [dsm_local_path, hinj, h]
  · intro p hp
    simp [processMediaWorker, hp]
  · intro hres
    simp [processMediaWorker, hres]

/-- C3, witness: the queued-mode null write at the concrete fixture. -/
theorem C3_witness :
    (processMediaWorker env2 fsEmpty (strOf "t1") mediaF).2.local_path = some none := by
  exact (C3_local_path env2 fsEmpty (strOf "t1") none mediaF rfl).2.2.2 (by decide)

/-! ### Claim C6 -/

/-- C6: the bandwidth scan selects the first-seen entry of strictly
highest bandwidth (the selected entry exceeds everything before it and
at least ties everything after it, and nothing is selected only when no
entry parses above the initial -1); when a master playlist selects a
URI, the parser recurses into the resolved variant playlist; on the
section-8 vectors the 1200000-bandwidth URI wins and a tie keeps the
first-seen URI. -/
theorem C6_variant_selection :
    (∀ lines : List Str,
       (selectVariant lines = (-1, none) ∧ ∀ e ∈ variantEntries lines, e.1 ≤ -1)
       ∨ (∃ l₁ b u l₂, variantEntries lines = l₁ ++ (b, u) :: l₂
           ∧ selectVariant lines = (b, some u)
           ∧ -1 < b ∧ (∀ e ∈ l₁, e.1 < b) ∧ (∀ e ∈ l₂, e.1 ≤ b)))
    ∧ (∀ (netT : Str → Option Str) (fuel : Nat) (url referer text uri : Str),
       netT url = some text →
       containsSubL text (strOf "#EXT-X-STREAM-INF") = true →
       (selectVariant (strippedLines text)).2 = some uri →
       parse_m3u8_playlist netT (fuel + 1) url referer
         = ((parse_m3u8_playlist netT fuel (resolveUrl url uri) referer).1,
            url :: (parse_m3u8_playlist netT fuel (resolveUrl url uri) referer).2))
    ∧ parse_m3u8_playlist netTextC6 2 (strOf "https://h/m.m3u8") (strOf "r")
        = ([strOf "https://h/s0.ts"], [strOf "https://h/m.m3u8", strOf "https://h/high.m3u8"])
    ∧ selectVariant (strippedLines
        (strOf "#EXT-X-STREAM-INF:BANDWIDTH=500000\na.m3u8\n#EXT-X-STREAM-INF:BANDWIDTH=500000\nb.m3u8\n"))
        = (500000, some (strOf "a.m3u8")) := by
  refine ⟨?_, ?_, by decide, by decide⟩
  · intro lines
    have hsel : selectVariant lines = (variantEntries lines).foldl selStep (-1, none) :=
      selectLoop_eq_foldl lines (-1, none)
    rcases foldl_selStep_spec (variantEntries lines) (-1, none) with
      ⟨heq, hall⟩ | ⟨l₁, b, u, l₂, hsplit, heq, hgt, hl₁, hl₂⟩
    · left
      exact ⟨hsel.trans heq, hall⟩
    · right
      exact ⟨l₁, b, u, l₂, hsplit, hsel.trans heq, hgt, hl₁, hl₂⟩
  · intro netT fuel url referer text uri ht hc hu
    simp [parse_m3u8_playlist, ht, hc, hu]

/-- C6, witness: on the concrete two-variant master playlist, the parser
recurses into the resolved URI of the 1200000-bandwidth variant. -/
theorem C6_witness :
    parse_m3u8_playlist netTextC6 (1 + 1) (strOf "https://h/m.m3u8") (strOf "r")
      = ((parse_m3u8_playlist netTextC6 1
            (resolveUrl (strOf "https://h/m.m3u8") (strOf "high.m3u8")) (strOf "r")).1,
         strOf "https://h/m.m3u8"
           :: (parse_m3u8_playlist netTextC6 1
                (resolveUrl (strOf "https://h/m.m3u8") (strOf "high.m3u8")) (strOf "r")).2) := by
  exact C6_variant_selection.2.1 netTextC6 1 (strOf "https://h/m.m3u8") (strOf "r")
    (strOf "#EXT-X-STREAM-INF:BANDWIDTH=500000\nlow.m3u8\n#EXT-X-STREAM-INF:BANDWIDTH=1200000\nhigh.m3u8\n")
    (strOf "high.m3u8") (by decide) (by decide) (by decide)

/-! ### Claim C7 -/

/-- C7: after downloading and concatenating, the output file holds the
concatenation of exactly the successfully downloaded segment bodies in
original playlist order, so its byte length is the sum of their lengths;
failed segments contribute nothing; with no downloaded segment the
concatenation reports failure. -/
theorem C7_concatenation (netBin : Str → Option Bytes) (tempDir : Str) (fs : FS)
    (urls : List Str) (o : Str) :
    ((download_segments netBin tempDir fs urls).2 ≠ [] →
      (concatenate_segments (download_segments netBin tempDir fs urls).1
          (download_segments netBin tempDir fs urls).2 (FsPath.plain o)).1 (FsPath.plain o)
        = some (urls.filterMap netBin).flatten
      ∧ ((urls.filterMap netBin).flatten).length
          = ((urls.filterMap netBin).map List.length).sum
      ∧ (concatenate_segments (download_segments netBin tempDir fs urls).1
          (download_segments netBin tempDir fs urls).2 (FsPath.plain o)).2
        = decide (0 < ((urls.filterMap netBin).flatten).length))
    ∧ ((download_segments netBin tempDir fs urls).2 = [] →
      (concatenate_segments (download_segments netBin tempDir fs urls).1
          (download_segments netBin tempDir fs urls).2 (FsPath.plain o)).2 = false) := by
  have henum : urls.enum = List.enumFrom 0 urls := rfl
  have hspec := download_segments_go_spec netBin tempDir urls 0 fs
  have hmap : (download_segments netBin tempDir fs urls).2.map
      (download_segments netBin tempDir fs urls).1
      = (urls.filterMap netBin).map some := by
    simpa [download_segments, henum] using hspec.2.2
  constructor
  · intro hne
    cases hdl : (download_segments netBin tempDir fs urls).2 with
    | nil => exact absurd hdl hne
    | cons q qs =>
      rw [hdl] at hmap
      have hfold : (q :: qs).foldl (fun acc p =>
          match (download_segments netBin tempDir fs urls).1 p with
          | some b => acc ++ b
          | none => acc) [] = (urls.filterMap netBin).flatten := by
        have := concat_fold_of_map (download_segments netBin tempDir fs urls).1
          (q :: qs) (urls.filterMap netBin) [] hmap
        simpa using this
      refine ⟨?_, by simp, ?_⟩
      · simp [concatenate_segments, hfold, FS.setFile]
      · simp only [concatenate_segments, hfold]
  · intro hdl
    rw [hdl]
    rfl

/-- C7, witness: the section-8 scenario - three segments of sizes 10,
failed and 20 produce an output of exactly 30 bytes. -/
theorem C7_witness :
    (concatenate_segments (download_segments netBinW (strOf "td") fsEmpty
          [strOf "s0", strOf "s1", strOf "s2"]).1
        (download_segments netBinW (strOf "td") fsEmpty [strOf "s0", strOf "s1", strOf "s2"]).2
        (FsPath.plain (strOf "o"))).1 (FsPath.plain (strOf "o"))
      = some (([strOf "s0", strOf "s1", strOf "s2"].filterMap netBinW).flatten)
    ∧ (([strOf "s0", strOf "s1", strOf "s2"].filterMap netBinW).flatten).length = 30 := by
  have h := (C7_concatenation netBinW (strOf "td") fsEmpty
    [strOf "s0", strOf "s1", strOf "s2"] (strOf "o")).1 (by decide)
  exact ⟨h.1, by decide⟩

/-! ### Claim C8 -/

/-- C8: a non-HLS item issues at most 3 GET attempts whatever the oracle
answers (429 cycles consume the same budget); a generic error on a
non-final attempt sleeps the current backoff and doubles it capped at
300; when every attempt raises, the sleeps are 60 then 120 and the
final attempt's failure yields `None` instead of an exception. -/
theorem C8_retry_budget :
    (∀ (env : Env) (fs : FS) (media : MediaItem) (tweetId : Str),
       containsSubL (normalizedUrl media) (strOf ".m3u8") = false →
       countGet (download_single_media env fs media tweetId).trace ≤ 3)
    ∧ (∀ (net : Nat → FetchResp) (cfg : Config) (u mt t : Str) (i : Nat) (fs : FS)
         (z : Option Nat) (a r b : Nat) (tr : List Ev),
       net a = FetchResp.netError →
       fetchLoop net cfg u mt t i fs z a (r + 2) b tr
         = fetchLoop net cfg u mt t i fs z (a + 1) (r + 1) (min (b * 2) 300)
             ((tr ++ [Ev.get u]) ++ [Ev.sleep b]))
    ∧ (∀ (net : Nat → FetchResp) (cfg : Config) (u mt t : Str) (i : Nat) (fs : FS)
         (z : Option Nat),
       (∀ a, net a = FetchResp.netError) →
       fetchLoop net cfg u mt t i fs z 1 3 60 []
         = ⟨none, fs, z, [Ev.get u, Ev.sleep 60, Ev.get u, Ev.sleep 120, Ev.get u]⟩) := by
  refine ⟨?_, ?_, ?_⟩
  · intro env fs media t hm
    by_cases h0 : media.url = []
    · simp [download_single_media, h0, countGet]
    · by_cases hb : startsWithL media.url (strOf "blob:") = true
      · simp [download_single_media, h0, hb, countGet]
      · have hb' : startsWithL media.url (strOf "blob:") = false := by simpa using hb
        rw [dsm_direct env fs media t h0 hb' hm]
        have := fetchLoop_countGet (env.net (normalizedUrl media)) env.cfg
          (normalizedUrl media) media.type t media.media_index fs media.file_size 3 1 60 []
        simpa [countGet] using this
  · intro net cfg u mt t i fs z a r b tr h
    exact fetchLoop_error_step net cfg u mt t i fs z a r b tr h
  · intro net cfg u mt t i fs z h
    calc fetchLoop net cfg u mt t i fs z 1 3 60 []
        = fetchLoop net cfg u mt t i fs z 2 2 120 [Ev.get u, Ev.sleep 60] :=
          fetchLoop_error_step net cfg u mt t i fs z 1 1 60 [] (h 1)
      _ = fetchLoop net cfg u mt t i fs z 3 1 240
            [Ev.get u, Ev.sleep 60, Ev.get u, Ev.sleep 120] :=
          fetchLoop_error_step net cfg u mt t i fs z 2 0 120 [Ev.get u, Ev.sleep 60] (h 2)
      _ = ⟨none, fs, z, [Ev.get u, Ev.sleep 60, Ev.get u, Ev.sleep 120, Ev.get u]⟩ :=
          fetchLoop_error_last net cfg u mt t i fs z 3 240
            [Ev.get u, Ev.sleep 60, Ev.get u, Ev.sleep 120] (h 3)

/-- C8, witness: the GET bound at a concrete direct item with an
always-failing oracle. -/
theorem C8_witness :
    countGet (download_single_media env2 fsEmpty mediaF (strOf "t1")).trace ≤ 3 := by
  exact C8_retry_budget.1 env2 fsEmpty mediaF (strOf "t1") (by decide)

/-! ### Claim C9 -/

/-- C9: the already-exists short-circuit of the HLS reconstructor looks
only at the `.mp4` target; when that is absent or empty - even though
the `.ts` deliverable of a previous fallback run exists non-empty - the
reconstructor requests the playlist again (the first requested URL is
the manifest) and every parsed segment URL is requested again. -/
theorem C9_ts_not_skipped (env : Env) (fs : FS) (m3u8Url tweetId : Str) (idx : Nat)
    (referer : Str) (c : Bytes) (k : Nat)
    (hmp4 : fs (hlsMp4Path env.cfg tweetId idx) = none
      ∨ fs (hlsMp4Path env.cfg tweetId idx) = some [])
    (_hts : fs (hlsTsPath env.cfg tweetId idx) = some c) (_hlen : 0 < c.length)
    (hfuel : env.fuel = k + 1) :
    (download_hls_by_segments env fs m3u8Url tweetId idx referer).requested.head?
        = some m3u8Url
    ∧ ∀ u ∈ (parse_m3u8_playlist env.netText env.fuel m3u8Url referer).1,
        u ∈ (download_hls_by_segments env fs m3u8Url tweetId idx referer).requested := by
  rw [download_hls_proceeds env fs m3u8Url tweetId idx referer hmp4,
      hlsAfterCheck_requested]
  constructor
  · have hh : (parse_m3u8_playlist env.netText env.fuel m3u8Url referer).2.head?
        = some m3u8Url := by
      rw [hfuel]
      exact parse_requests_head env.netText k m3u8Url referer
    cases hr : (parse_m3u8_playlist env.netText env.fuel m3u8Url referer).2 with
    | nil => rw [hr] at hh; simp at hh
    | cons q qs =>
      rw [hr] at hh
      simp only [List.head?_cons, Option.some.injEq] at hh
      subst hh
      simp
  · intro u hu
    exact List.mem_append_right _ hu

/-- C9, witness: with the `.ts` deliverable on disk and no `.mp4`, the
concrete reconstruction still requests the manifest and its segment. -/
theorem C9_witness :
    (download_hls_by_segments env2 fsC9 (strOf "https://h/v/index.m3u8") (strOf "t1") 0
        (strOf "r")).requested.head? = some (strOf "https://h/v/index.m3u8")
    ∧ ∀ u ∈ (parse_m3u8_playlist env2.netText env2.fuel (strOf "https://h/v/index.m3u8")
          (strOf "r")).1,
        u ∈ (download_hls_by_segments env2 fsC9 (strOf "https://h/v/index.m3u8") (strOf "t1") 0
          (strOf "r")).requested := by
  exact C9_ts_not_skipped env2 fsC9 (strOf "https://h/v/index.m3u8") (strOf "t1") 0
    (strOf "r") [5] 1 (Or.inl (by decide)) (by decide) (by decide) rfl

/-! ### Claim C10 -/

/-- C10: playlist parsing is a total function - a manifest fetch failure
produces the empty segment list (after the one attempted request), and a
parse yielding no segments makes the reconstructor return `None`;
failure is signalled by the optional result, never by an exception. -/
theorem C10_parse_total :
    (∀ (netT : Str → Option Str) (fuel : Nat) (url referer : Str),
       netT url = none →
       parse_m3u8_playlist netT (fuel + 1) url referer = ([], [url]))
    ∧ (∀ (env : Env) (fs : FS) (m3u8Url tweetId : Str) (idx : Nat) (referer : Str),
       (fs (hlsMp4Path env.cfg tweetId idx) = none
         ∨ fs (hlsMp4Path env.cfg tweetId idx) = some []) →
       (parse_m3u8_playlist env.netText env.fuel m3u8Url referer).1 = [] →
       (download_hls_by_segments env fs m3u8Url tweetId idx referer).result = none) := by
  constructor
  · intro netT fuel url referer h
    simp [parse_m3u8_playlist, h]
  · intro env fs url t i r hmp4 hseg
    rw [download_hls_proceeds env fs url t i r hmp4,
        hlsAfterCheck_result_of_nil env fs url t i r _ hseg]

/-- C10, witness: a failing manifest oracle produces the empty segment
list for a concrete URL. -/
theorem C10_witness :
    parse_m3u8_playlist (fun _ => none) (0 + 1) (strOf "https://h/x.m3u8") (strOf "r")
      = ([], [strOf "https://h/x.m3u8"]) := by
  exact C10_parse_total.1 (fun _ => none) 0 (strOf "https://h/x.m3u8") (strOf "r") rfl

end GetTweet
